import Mathlib

/-!
Verification of the Terraform AWS provider excerpt consisting of the
Cognito user-pool user resource (package `cognitoidp`,
src/unnamed/part_000) and the Network Manager core-network policy
attachment resource (package `networkmanager`,
src/internal/service/networkmanager/core_network_policy_attachment.go).

Go `map[string]interface{}` values holding strings are embedded as
association lists `List (String × String)` with pairwise-distinct keys
(a Go map always has distinct keys); Go `[]*string` becomes
`List String`; strings are Lean `String`, with the byte-level Go
operations (`strings.HasPrefix`, `strings.TrimPrefix`,
`strings.Split`) embedded over `String.data` character lists.

The CRUD handlers are embedded as pure step functions over an explicit
resource-state record (the fields of the Terraform `schema.ResourceData`,
with `Old`/`New` slots for the fields whose previous and configured
values the handlers distinguish via `GetChange`/`HasChange`; `Set`
writes the `New` slot, and `HasChange` is embedded as inequality of the
two slots).  Every remote AWS call that a handler makes is recorded in
a trace (`List RemoteCall`/`List NMCall`), the outcome of each call is
supplied by an oracle record standing for the remote service, and the
returned `Bool` is `true` exactly when the handler returns a non-empty
error diagnostic, so that all error paths can be analysed.  Only the
handlers the verified claims mention are embedded; the create/update
handlers of the core-network policy attachment are out of scope.
-/

namespace TFAWS


/-- Association-list lookup, the embedding of `oldMap[k]` on a Go
`map[string]interface{}`. -/
def mapLookup : List (String × String) → String → Option String
  | [], _ => none
  | (k', v) :: rest, k => if k' = k then some v else mapLookup rest k

/-- Association-list deletion, the embedding of Go `delete(oldMap, k)`. -/
def mapDelete : List (String × String) → String → List (String × String)
  | [], _ => []
  | (k', v) :: rest, k =>
    if k' = k then mapDelete rest k else (k', v) :: mapDelete rest k

/-- The key set of an embedded Go map. -/
def keys (m : List (String × String)) : List String := m.map Prod.fst

/-- Association-list insertion where an existing key is overwritten, the
embedding of Go `tfMap[name] = value`. -/
def mapInsert (m : List (String × String)) (k v : String) :
    List (String × String) :=
  if m.any (fun p => p.1 == k) then
    m.map (fun p => if p.1 = k then (k, v) else p)
  else m ++ [(k, v)]

/-- The loop of `computeUserAttributesUpdate` (src/unnamed/part_000,
lines 484-493): iterate over the entries of the `new` map; a key also
present in `old` is deleted from `old` and contributes to `upd` when the
values differ; a key absent from `old` always contributes to `upd`.
Returns the accumulated `upd` entries together with the final contents
of the (mutated) `old` map. -/
def computeUserAttributesLoop :
    List (String × String) → List (String × String) →
    List (String × String) × List (String × String)
  | oldMap, [] => ([], oldMap)
  | oldMap, (k, v) :: rest =>
    match mapLookup oldMap k with
    | some oldV =>
      let r := computeUserAttributesLoop (mapDelete oldMap k) rest
      (if oldV ≠ v then (k, v) :: r.1 else r.1, r.2)
    | none =>
      let r := computeUserAttributesLoop oldMap rest
      ((k, v) :: r.1, r.2)

/-- `computeUserAttributesUpdate` (src/unnamed/part_000, lines 478-501).
Computes which user attributes should be updated (`upd`) and which
should be deleted (`del`, the keys left in `oldMap` after the loop).
The Go function receives `old` as a `map[string]interface{}` and
mutates it in place via `delete(oldMap, k)`; the third component of the
result records the contents of the caller's `old` map after the call
returns, so that this side effect is visible in the embedding. -/
def computeUserAttributesUpdate (old new : List (String × String)) :
    List (String × String) × List String × List (String × String) :=
  let r := computeUserAttributesLoop old new
  (r.1, keys r.2, r.2)

/-- The fixed standard-attribute list of
`UserAttributeKeyMatchesStandardAttribute` (src/unnamed/part_000, lines
538-559). -/
def standardAttributeKeys : List String :=
  ["address", "birthdate", "email", "email_verified", "gender", "given_name",
   "family_name", "locale", "middle_name", "name", "nickname", "phone_number",
   "phone_number_verified", "picture", "preferred_username", "profile", "sub",
   "updated_at", "website", "zoneinfo"]

/-- `UserAttributeKeyMatchesStandardAttribute` (src/unnamed/part_000,
lines 533-567).  Go's `len(input)` is the byte length, which is zero
exactly when the string is empty. -/
def UserAttributeKeyMatchesStandardAttribute (input : String) : Bool :=
  if input.data.length = 0 then false
  else standardAttributeKeys.any (fun attributeKey => input == attributeKey)

/-- Character-list prefix test, the embedding of Go `strings.HasPrefix`
(defined over `List Char` so that it evaluates by kernel reduction). -/
def listIsPrefixOf : List Char → List Char → Bool
  | [], _ => true
  | _ :: _, [] => false
  | a :: as, b :: bs => a == b && listIsPrefixOf as bs

/-- Embedding of Go `strings.HasPrefix s pre`. -/
def hasPrefixGo (s pre : String) : Bool := listIsPrefixOf pre.data s.data

/-- Embedding of Go `strings.TrimPrefix s pre`: removes `pre` from the
front of `s` when present, otherwise returns `s` unchanged. -/
def trimPrefixGo (s pre : String) : String :=
  if hasPrefixGo s pre then String.mk (s.data.drop pre.data.length) else s

/-- The key transformation performed by the loop body of
`expandAttribute` (src/unnamed/part_000, lines 430-433): a key that is
neither standard nor already `custom:`-prefixed gets the `custom:`
prefix. -/
def expandAttributeKey (k : String) : String :=
  if !UserAttributeKeyMatchesStandardAttribute k && !hasPrefixGo k "custom:" then
    "custom:" ++ k
  else k

/-- `expandAttribute` (src/unnamed/part_000, lines 423-441).  The Go
function iterates a map in unspecified order and returns `nil` when the
map is empty; the embedding fixes the entry order of the association
list. -/
def expandAttribute (tfMap : List (String × String)) : List (String × String) :=
  if tfMap.length = 0 then []
  else tfMap.map (fun p => (expandAttributeKey p.1, p.2))

/-- `expandUserAttributesDelete` (src/unnamed/part_000, lines 443-456). -/
def expandUserAttributesDelete (input : List String) : List String :=
  input.map (fun v =>
    if !UserAttributeKeyMatchesStandardAttribute v && !hasPrefixGo v "custom:" then
      "custom:" ++ v
    else v)

/-- The name transformation performed by the loop body of
`flattenUserAttributes` (src/unnamed/part_000, lines 463-467): a
standard name is kept, any other name has a `dev:` and then a `custom:`
prefix stripped. -/
def flattenUserAttributeName (n : String) : String :=
  if UserAttributeKeyMatchesStandardAttribute n then n
  else trimPrefixGo (trimPrefixGo n "dev:") "custom:"

/-- `flattenUserAttributes` (src/unnamed/part_000, lines 458-473):
builds the state map from the API attribute list (`nil` attribute-name
pointers do not occur in the embedding, where names are plain strings). -/
def flattenUserAttributes (apiList : List (String × String)) :
    List (String × String) :=
  apiList.foldl (fun tfMap p => mapInsert tfMap (flattenUserAttributeName p.1) p.2) []

/-- `retrieveUserSub` (src/unnamed/part_000, lines 513-521). -/
def retrieveUserSub : List (String × String) → String
  | [] => ""
  | (n, v) :: rest => if n = "sub" then v else retrieveUserSub rest

/-! ### Cognito user resource handlers (src/unnamed/part_000) -/

/-- The remote AWS Cognito calls a handler of the user resource can
make; a handler records each call it issues in a trace. -/
inductive RemoteCall
  | adminCreateUser
  | adminDisableUser
  | adminEnableUser
  | adminSetUserPassword
  | adminUpdateUserAttributes
  | adminDeleteUserAttributes
  | adminGetUser
  | adminDeleteUser
  deriving DecidableEq

/-- Outcome of a remote lookup: a successful result, a "not found"
error (`tfresource.NotFound` holds of the returned error), or any
other non-nil error. -/
inductive FindResult (α : Type)
  | success (value : α)
  | notFound
  | otherError
  deriving DecidableEq

/-- The fields of a successful `AdminGetUser` response that
`resourceUserRead` consumes (timestamps are carried as their already
RFC3339-formatted strings). -/
structure RemoteUser where
  userAttributes : List (String × String)
  enabled : Bool
  userStatus : String
  preferredMfaSetting : String
  userMFASettingList : List String
  userCreateDate : String
  userLastModifiedDate : String
  deriving DecidableEq

/-- Oracle standing for the remote Cognito service: the outcome of each
kind of call the user-resource handlers make.  For `AdminCreateUser` a
successful outcome carries the username echoed in the response
(`resp.User.Username`); for the other mutating calls `true` means the
call returned no error; `adminGetUser` is the outcome of the lookup
performed by `FindUserByTwoPartKey` (src/unnamed/part_000, lines
397-421). -/
structure UserOracle where
  adminCreateUser : Option String
  adminDisableUser : Bool
  adminEnableUser : Bool
  adminSetUserPassword : Bool
  adminUpdateUserAttributes : Bool
  adminDeleteUserAttributes : Bool
  adminGetUser : FindResult RemoteUser
  adminDeleteUser : Bool
  deriving DecidableEq

/-- The `schema.ResourceData` of the Cognito user resource: the schema
fields of `ResourceUser` (src/unnamed/part_000, lines 25-140).  Fields
the handlers diff carry an `Old` (prior state) and a `New` (configured)
slot: `d.Get` reads the `New` slot, `d.GetChange` returns both,
`d.HasChange` is embedded as inequality of the two, and `d.Set` writes
the `New` slot.  `id` is the resource ID (`d.Id`/`d.SetId`) and
`isNewResource` is `d.IsNewResource()`. -/
structure UserData where
  id : String
  userPoolId : String
  username : String
  attributesOld : List (String × String)
  attributesNew : List (String × String)
  clientMetadata : List (String × String)
  enabledOld : Bool
  enabledNew : Bool
  temporaryPasswordOld : String
  temporaryPasswordNew : String
  passwordOld : String
  passwordNew : String
  status : String
  sub : String
  mfaSettingList : List String
  preferredMfaSetting : String
  creationDate : String
  lastModifiedDate : String
  isNewResource : Bool
  deriving DecidableEq

/-- Whether a given remote call has a non-nil error result under the
oracle (for the lookup, both "not found" and any other error are
non-nil error results). -/
def userCallFailed (o : UserOracle) : RemoteCall → Bool
  | .adminCreateUser => o.adminCreateUser.isNone
  | .adminDisableUser => !o.adminDisableUser
  | .adminEnableUser => !o.adminEnableUser
  | .adminSetUserPassword => !o.adminSetUserPassword
  | .adminUpdateUserAttributes => !o.adminUpdateUserAttributes
  | .adminDeleteUserAttributes => !o.adminDeleteUserAttributes
  | .adminGetUser =>
    match o.adminGetUser with
    | .success _ => false
    | _ => true
  | .adminDeleteUser => !o.adminDeleteUser

/-- `resourceUserRead` (src/unnamed/part_000, lines 226-258): look the
user up via `FindUserByTwoPartKey`; on a not-found error with the
resource not newly created, clear the ID and return no diagnostics; on
any other error return an error diagnostic; on success set the state
fields from the response.  The result is (final state, trace of remote
calls, whether an error diagnostic is returned). -/
def resourceUserRead (o : UserOracle) (d : UserData) :
    UserData × List RemoteCall × Bool :=
  match o.adminGetUser with
  | .notFound =>
    if !d.isNewResource then ({ d with id := "" }, [.adminGetUser], false)
    else (d, [.adminGetUser], true)
  | .otherError => (d, [.adminGetUser], true)
  | .success user =>
    ({ d with
        attributesNew := flattenUserAttributes user.userAttributes,
        mfaSettingList := user.userMFASettingList,
        preferredMfaSetting := user.preferredMfaSetting,
        status := user.userStatus,
        enabledNew := user.enabled,
        creationDate := user.userCreateDate,
        lastModifiedDate := user.userLastModifiedDate,
        sub := retrieveUserSub user.userAttributes },
      [.adminGetUser], false)

/-- The trailing `return append(diags, resourceUserRead(ctx, d, meta)...)`
of `resourceUserCreate` (line 223) and `resourceUserUpdate` (line 365):
run the read and append its calls to the trace accumulated so far. -/
def handlerFinalRead (o : UserOracle) (d : UserData) (tr : List RemoteCall) :
    UserData × List RemoteCall × Bool :=
  let r := resourceUserRead o d
  (r.1, tr ++ r.2.1, r.2.2)

/-- The `d.HasChange("password")` block of `resourceUserUpdate`
(src/unnamed/part_000, lines 345-363): a non-empty changed password is
set permanently via `AdminSetUserPassword` (returning an error
diagnostic if the call fails), an empty one is written back as nil;
then the trailing read runs. -/
def userUpdatePasswordStep (o : UserOracle) (d : UserData)
    (tr : List RemoteCall) : UserData × List RemoteCall × Bool :=
  if d.passwordOld != d.passwordNew then
    if d.passwordNew != "" then
      if !o.adminSetUserPassword then (d, tr ++ [.adminSetUserPassword], true)
      else handlerFinalRead o d (tr ++ [.adminSetUserPassword])
    else handlerFinalRead o { d with passwordNew := "" } tr
  else handlerFinalRead o d tr

/-- The `d.HasChange("temporary_password")` block of
`resourceUserUpdate` (src/unnamed/part_000, lines 325-343), analogous
to the password block but with `Permanent: false`. -/
def userUpdateTempPasswordStep (o : UserOracle) (d : UserData)
    (tr : List RemoteCall) : UserData × List RemoteCall × Bool :=
  if d.temporaryPasswordOld != d.temporaryPasswordNew then
    if d.temporaryPasswordNew != "" then
      if !o.adminSetUserPassword then (d, tr ++ [.adminSetUserPassword], true)
      else userUpdatePasswordStep o d (tr ++ [.adminSetUserPassword])
    else userUpdatePasswordStep o { d with temporaryPasswordNew := "" } tr
  else userUpdatePasswordStep o d tr

/-- The `d.HasChange("enabled")` block of `resourceUserUpdate`
(src/unnamed/part_000, lines 301-323): when the enabled value changed,
call `AdminEnableUser` or `AdminDisableUser` according to the new
value, returning an error diagnostic if the call fails. -/
def userUpdateEnabledStep (o : UserOracle) (d : UserData)
    (tr : List RemoteCall) : UserData × List RemoteCall × Bool :=
  if d.enabledOld != d.enabledNew then
    if d.enabledNew then
      if !o.adminEnableUser then (d, tr ++ [.adminEnableUser], true)
      else userUpdateTempPasswordStep o d (tr ++ [.adminEnableUser])
    else
      if !o.adminDisableUser then (d, tr ++ [.adminDisableUser], true)
      else userUpdateTempPasswordStep o d (tr ++ [.adminDisableUser])
  else userUpdateTempPasswordStep o d tr

/-- The `len(del) > 0` half of the attributes block of
`resourceUserUpdate` (src/unnamed/part_000, lines 288-298): when the
computed delete list is non-empty, call `AdminDeleteUserAttributes`,
returning an error diagnostic if the call fails. -/
def userUpdateAttributesDeleteStep (o : UserOracle) (d : UserData)
    (tr : List RemoteCall) (del : List String) :
    UserData × List RemoteCall × Bool :=
  if 0 < del.length then
    if !o.adminDeleteUserAttributes then
      (d, tr ++ [.adminDeleteUserAttributes], true)
    else userUpdateEnabledStep o d (tr ++ [.adminDeleteUserAttributes])
  else userUpdateEnabledStep o d tr

/-- `resourceUserUpdate` (src/unnamed/part_000, lines 260-366): when
the attributes changed, compute the reconciliation and issue
`AdminUpdateUserAttributes` when the upsert set is non-empty
(lines 271-287) and `AdminDeleteUserAttributes` when the delete list is
non-empty; then the enabled, temporary-password and password blocks;
finally the refresh read.  Any failing call returns its error
diagnostic immediately.  (`HasChange("attributes")` is embedded as
inequality of the old and new maps; the `DiffSuppressFunc` on
`attributes.sub`/`attributes.%` lives in the plugin SDK's diff engine,
outside these handlers.) -/
def resourceUserUpdate (o : UserOracle) (d : UserData) :
    UserData × List RemoteCall × Bool :=
  if d.attributesOld != d.attributesNew then
    if 0 < (computeUserAttributesUpdate d.attributesOld d.attributesNew).1.length then
      if !o.adminUpdateUserAttributes then
        (d, [.adminUpdateUserAttributes], true)
      else userUpdateAttributesDeleteStep o d [.adminUpdateUserAttributes]
        (computeUserAttributesUpdate d.attributesOld d.attributesNew).2.1
    else userUpdateAttributesDeleteStep o d []
      (computeUserAttributesUpdate d.attributesOld d.attributesNew).2.1
  else userUpdateEnabledStep o d []

/-- The `d.GetOk("password")` block of `resourceUserCreate`
(src/unnamed/part_000, lines 209-221): when a password is configured
(`GetOk` is true exactly when the string is non-empty), set it
permanently, returning an error diagnostic if the call fails; then the
trailing read. -/
def createPasswordStep (o : UserOracle) (d : UserData)
    (tr : List RemoteCall) : UserData × List RemoteCall × Bool :=
  if d.passwordNew != "" then
    if !o.adminSetUserPassword then (d, tr ++ [.adminSetUserPassword], true)
    else handlerFinalRead o d (tr ++ [.adminSetUserPassword])
  else handlerFinalRead o d tr

/-- `resourceUserCreate` (src/unnamed/part_000, lines 142-224): call
`AdminCreateUser` (whose input is built from the configured fields); on
failure return an error diagnostic with no state written; on success
set the ID to `user_pool_id/username-from-response` (line 195), then
disable the user when `enabled` is false, set the password when one is
configured, and run the refresh read.  Payload-only input fields
(client metadata, delivery mediums, force-alias, message action,
attributes, validation data, temporary password) shape the request but
not the control flow or local state, and are not tracked beyond the
state record. -/
def resourceUserCreate (o : UserOracle) (d : UserData) :
    UserData × List RemoteCall × Bool :=
  match o.adminCreateUser with
  | none => (d, [.adminCreateUser], true)
  | some respUsername =>
    if !d.enabledNew then
      if !o.adminDisableUser then
        ({ d with id := d.userPoolId ++ "/" ++ respUsername },
          [.adminCreateUser, .adminDisableUser], true)
      else createPasswordStep o
        { d with id := d.userPoolId ++ "/" ++ respUsername }
        [.adminCreateUser, .adminDisableUser]
    else createPasswordStep o
      { d with id := d.userPoolId ++ "/" ++ respUsername }
      [.adminCreateUser]

/-- `resourceUserDelete` (src/unnamed/part_000, lines 368-383). -/
def resourceUserDelete (o : UserOracle) (d : UserData) :
    UserData × List RemoteCall × Bool :=
  if !o.adminDeleteUser then (d, [.adminDeleteUser], true)
  else (d, [.adminDeleteUser], false)

/-- A concrete oracle used by witnesses and counterexamples: every call
succeeds except the user lookup, which reports not-found. -/
def sampleUserOracle : UserOracle :=
  { adminCreateUser := some "alice", adminDisableUser := true,
    adminEnableUser := true, adminSetUserPassword := true,
    adminUpdateUserAttributes := true, adminDeleteUserAttributes := true,
    adminGetUser := FindResult.notFound, adminDeleteUser := true }

/-- A concrete user-resource state used by witnesses and
counterexamples. -/
def sampleUserData : UserData :=
  { id := "pool/alice", userPoolId := "pool", username := "alice",
    attributesOld := [], attributesNew := [], clientMetadata := [],
    enabledOld := true, enabledNew := true,
    temporaryPasswordOld := "", temporaryPasswordNew := "",
    passwordOld := "", passwordNew := "",
    status := "", sub := "", mfaSettingList := [],
    preferredMfaSetting := "", creationDate := "", lastModifiedDate := "",
    isNewResource := false }

/-! ### Core-network policy attachment resource
(src/internal/service/networkmanager/core_network_policy_attachment.go) -/

/-- The remote Network Manager calls the policy attachment handlers can
make. -/
inductive NMCall
  | getCoreNetwork
  | getCoreNetworkPolicy
  | putAndExecutePolicy
  | waitCoreNetworkUpdated
  deriving DecidableEq

/-- The fields of a `FindCoreNetworkByID` response the read handler
consumes. -/
structure CoreNetwork where
  coreNetworkId : String
  state : String
  deriving DecidableEq

/-- Oracle for the remote Network Manager service: the outcome of the
core-network lookup, of the policy lookup (carrying the policy document
on success), and of JSON-encoding the policy document. -/
structure CoreNetworkOracle where
  findCoreNetwork : FindResult CoreNetwork
  findCoreNetworkPolicy : FindResult String
  encodeJSONValue : Bool
  deriving DecidableEq

/-- The `schema.ResourceData` of the policy attachment resource
(schema at core_network_policy_attachment.go, lines 34-61);
`policyDocument` is `none` when `policy_document` is set to nil. -/
structure CoreNetworkData where
  id : String
  coreNetworkId : String
  policyDocument : Option String
  state : String
  isNewResource : Bool
  deriving DecidableEq

/-- `resourceCoreNetworkPolicyAttachmentRead`
(core_network_policy_attachment.go, lines 71-106): look the core
network up by ID; on not-found with the resource not newly created,
clear the ID and return nil; on any other lookup error return an error
diagnostic; on success set `core_network_id` and `state`, then fetch
the policy with a second call, treating its not-found as a nil policy
document and its other errors (and an encoding failure) as error
diagnostics. -/
def resourceCoreNetworkPolicyAttachmentRead (o : CoreNetworkOracle)
    (d : CoreNetworkData) : CoreNetworkData × List NMCall × Bool :=
  match o.findCoreNetwork with
  | .notFound =>
    if !d.isNewResource then ({ d with id := "" }, [.getCoreNetwork], false)
    else (d, [.getCoreNetwork], true)
  | .otherError => (d, [.getCoreNetwork], true)
  | .success coreNetwork =>
    match o.findCoreNetworkPolicy with
    | .notFound =>
      ({ d with
          coreNetworkId := coreNetwork.coreNetworkId,
          state := coreNetwork.state, policyDocument := none },
        [.getCoreNetwork, .getCoreNetworkPolicy], false)
    | .otherError =>
      ({ d with
          coreNetworkId := coreNetwork.coreNetworkId,
          state := coreNetwork.state },
        [.getCoreNetwork, .getCoreNetworkPolicy], true)
    | .success doc =>
      if !o.encodeJSONValue then
        ({ d with
            coreNetworkId := coreNetwork.coreNetworkId,
            state := coreNetwork.state },
          [.getCoreNetwork, .getCoreNetworkPolicy], true)
      else
        ({ d with
            coreNetworkId := coreNetwork.coreNetworkId,
            state := coreNetwork.state, policyDocument := some doc },
          [.getCoreNetwork, .getCoreNetworkPolicy], false)

/-- Modelled from the spec: `schema.NoopContext` of the Terraform
plugin SDK, which core_network_policy_attachment.go line 24 installs as
the resource's `DeleteWithoutTimeout`; the SDK function itself is not
under src/.  Per the spec ("No delete operation (no-op)", "deletion is
a no-op"), it does nothing: no remote call, no state change, no
diagnostics. -/
def schemaNoopContext (d : CoreNetworkData) :
    CoreNetworkData × List NMCall × Bool :=
  (d, [], false)

/-- The delete handler of `ResourceCoreNetworkPolicyAttachment`
(core_network_policy_attachment.go, line 24:
`DeleteWithoutTimeout: schema.NoopContext`). -/
def resourceCoreNetworkPolicyAttachmentDelete :
    CoreNetworkData → CoreNetworkData × List NMCall × Bool :=
  schemaNoopContext

/-- A concrete Network Manager oracle for witnesses: both lookups
report not-found. -/
def sampleCoreNetworkOracle : CoreNetworkOracle :=
  { findCoreNetwork := FindResult.notFound,
    findCoreNetworkPolicy := FindResult.notFound, encodeJSONValue := true }

/-- A concrete policy attachment state used by witnesses. -/
def sampleCoreNetworkData : CoreNetworkData :=
  { id := "core-network-0123456789abcdef0",
    coreNetworkId := "core-network-0123456789abcdef0",
    policyDocument := none, state := "AVAILABLE", isNewResource := false }

/-- The loop of Go `strings.Split(s, "/")`: cut the character list at
every `'/'`. -/
def splitSlashAux : List Char → List Char → List String
  | [], acc => [String.mk acc.reverse]
  | c :: cs, acc =>
    if c = '/' then String.mk acc.reverse :: splitSlashAux cs []
    else splitSlashAux cs (c :: acc)

/-- Embedding of Go `strings.Split(s, "/")`: the list of substrings of
`s` between occurrences of `'/'` (one more part than separators; a
part may be empty). -/
def goSplitSlash (s : String) : List String := splitSlashAux s.data []

/-- `resourceUserImport` (src/unnamed/part_000, lines 385-395): split
the import ID on `'/'`; unless that yields exactly two parts, fail
immediately (`none`, the Go `return nil, errors.New(...)`) without
setting any state; otherwise set `user_pool_id` to the first part and
`username` to the second. -/
def resourceUserImport (d : UserData) : Option UserData :=
  if (goSplitSlash d.id).length ≠ 2 then none
  else some { d with userPoolId := (goSplitSlash d.id).getD 0 "",
                     username := (goSplitSlash d.id).getD 1 "" }

/-! ### Theorems -/

theorem mapLookup_eq_none_iff (m : List (String × String)) (k : String) :
    mapLookup m k = none ↔ ∀ p ∈ m, p.1 ≠ k := by
  induction m with
  | nil => simp [mapLookup]
  | cons p rest ih =>
    obtain ⟨k', v⟩ := p
    by_cases h : k' = k <;> simp [mapLookup, h, ih]

theorem mapDelete_eq_filter (m : List (String × String)) (k : String) :
    mapDelete m k = m.filter (fun p => p.1 ≠ k) := by
  induction m with
  | nil => simp [mapDelete]
  | cons p rest ih =>
    obtain ⟨k', v⟩ := p
    by_cases h : k' = k <;> simp [mapDelete, h, ih]

theorem mapLookup_mapDelete_ne (m : List (String × String)) (k k' : String)
    (h : k' ≠ k) : mapLookup (mapDelete m k) k' = mapLookup m k' := by
  induction m with
  | nil => simp [mapDelete]
  | cons p rest ih =>
    obtain ⟨a, v⟩ := p
    by_cases ha : a = k
    · subst ha
      have hak' : a ≠ k' := fun hh => h hh.symm
      simp [mapDelete, mapLookup, hak', ih]
    · by_cases ha' : a = k'
      · subst ha'
        simp [mapDelete, mapLookup, ha, ih]
      · simp [mapDelete, mapLookup, ha, ha', ih]

theorem mem_keys {k : String} {m : List (String × String)} :
    k ∈ keys m ↔ ∃ v, (k, v) ∈ m := by
  simp only [keys, List.mem_map, Prod.exists]
  constructor
  · rintro ⟨a, b, hm, rfl⟩
    exact ⟨b, hm⟩
  · rintro ⟨v, hm⟩
    exact ⟨k, v, hm, rfl⟩

/-- After the loop, the old map holds exactly its original entries whose
keys do not occur in the new map. -/
theorem computeUserAttributesLoop_snd (new old : List (String × String)) :
    (computeUserAttributesLoop old new).2 =
      old.filter (fun p => !decide (p.1 ∈ keys new)) := by
  induction new generalizing old with
  | nil => simp [computeUserAttributesLoop, keys]
  | cons p rest ih =>
    obtain ⟨k, v⟩ := p
    cases hl : mapLookup old k with
    | some oldV =>
      simp only [computeUserAttributesLoop, hl]
      simp only [ih, mapDelete_eq_filter, List.filter_filter]
      apply List.filter_congr
      intro q hq
      by_cases h1 : q.1 = k <;> by_cases h2 : q.1 ∈ keys rest <;>
        simp [h1, h2, keys]
    | none =>
      have hl' := (mapLookup_eq_none_iff old k).mp hl
      simp only [computeUserAttributesLoop, hl]
      simp only [ih]
      apply List.filter_congr
      intro q hq
      by_cases h2 : q.1 ∈ keys rest <;> simp [hl' q hq, h2, keys]

/-- The entries accumulated in `upd` are exactly the entries of the new
map whose key is absent from the old map or bound there to a different
value. -/
theorem computeUserAttributesLoop_fst (new old : List (String × String))
    (hnd : (keys new).Nodup) :
    (computeUserAttributesLoop old new).1 =
      new.filter (fun p => !decide (mapLookup old p.1 = some p.2)) := by
  induction new generalizing old with
  | nil => simp [computeUserAttributesLoop]
  | cons p rest ih =>
    obtain ⟨k, v⟩ := p
    simp only [keys, List.map_cons, List.nodup_cons] at hnd
    obtain ⟨hk, hnd'⟩ := hnd
    cases hl : mapLookup old k with
    | some oldV =>
      have hrest : (computeUserAttributesLoop (mapDelete old k) rest).1 =
          rest.filter (fun p => !decide (mapLookup old p.1 = some p.2)) := by
        rw [ih _ hnd']
        apply List.filter_congr
        intro q hq
        have hqk : q.1 ≠ k := fun h => hk (h ▸ List.mem_map_of_mem Prod.fst hq)
        rw [mapLookup_mapDelete_ne _ _ _ hqk]
      simp only [computeUserAttributesLoop, hl, hrest]
      by_cases hov : oldV = v <;> simp [List.filter_cons, hl, hov]
    | none =>
      simp only [computeUserAttributesLoop, hl, ih _ hnd']
      simp [List.filter_cons, hl]

/-- C1: for every pair of attribute mappings `(prev, desired)` (as Go
maps: key sets without duplicates), `computeUserAttributesUpdate`
returns an upsert mapping holding exactly the entries `(k, v)` of
`desired` with `k` absent from `prev` or bound there to a value other
than `v`, a delete list holding exactly the keys of `prev` absent from
`desired`, and no key occurs both in the upsert mapping and in the
delete list. -/
theorem computeUserAttributesUpdate_spec (prev desired : List (String × String))
    (hprev : (keys prev).Nodup) (hdes : (keys desired).Nodup) :
    (∀ k v, (k, v) ∈ (computeUserAttributesUpdate prev desired).1 ↔
        ((k, v) ∈ desired ∧ mapLookup prev k ≠ some v)) ∧
    (∀ k, k ∈ (computeUserAttributesUpdate prev desired).2.1 ↔
        (k ∈ keys prev ∧ k ∉ keys desired)) ∧
    (∀ k, k ∈ keys (computeUserAttributesUpdate prev desired).1 →
        k ∉ (computeUserAttributesUpdate prev desired).2.1) := by
  have hupd : ∀ k v, (k, v) ∈ (computeUserAttributesUpdate prev desired).1 ↔
      ((k, v) ∈ desired ∧ mapLookup prev k ≠ some v) := by
    intro k v
    simp [computeUserAttributesUpdate, computeUserAttributesLoop_fst _ _ hdes,
      List.mem_filter]
  have hdel : ∀ k, k ∈ (computeUserAttributesUpdate prev desired).2.1 ↔
      (k ∈ keys prev ∧ k ∉ keys desired) := by
    intro k
    simp only [computeUserAttributesUpdate, computeUserAttributesLoop_snd]
    constructor
    · intro h
      obtain ⟨v, hv⟩ := mem_keys.mp h
      have hm := List.mem_filter.mp hv
      exact ⟨mem_keys.mpr ⟨v, hm.1⟩, by simpa using hm.2⟩
    · rintro ⟨h1, h2⟩
      obtain ⟨v, hv⟩ := mem_keys.mp h1
      exact mem_keys.mpr ⟨v, List.mem_filter.mpr ⟨hv, by simpa using h2⟩⟩
  refine ⟨hupd, hdel, ?_⟩
  intro k hku hkd
  obtain ⟨v, hv⟩ := mem_keys.mp hku
  have hdes' : (k, v) ∈ desired := ((hupd k v).mp hv).1
  exact ((hdel k).mp hkd).2 (mem_keys.mpr ⟨v, hdes'⟩)

/-- Witness for C1 at the spec example: previous `{"nickname": "a"}`,
desired `{"nickname": "b", "locale": "en"}`. -/
theorem computeUserAttributesUpdate_spec_witness :
    (keys [("nickname", "a")]).Nodup ∧
    (keys [("nickname", "b"), ("locale", "en")]).Nodup ∧
    (("locale", "en") ∈ (computeUserAttributesUpdate [("nickname", "a")]
        [("nickname", "b"), ("locale", "en")]).1 ↔
      (("locale", "en") ∈ [("nickname", "b"), ("locale", "en")] ∧
        mapLookup [("nickname", "a")] "locale" ≠ some "en")) :=
  ⟨by decide, by decide,
    (computeUserAttributesUpdate_spec [("nickname", "a")]
      [("nickname", "b"), ("locale", "en")] (by decide) (by decide)).1 "locale" "en"⟩

/-- C3 counterexample: `computeUserAttributesUpdate` mutates its `old`
argument in place (Go `delete(oldMap, k)` acts on the caller's map).
With previous `{"nickname": "a"}` and desired `{"nickname": "a"}` the
previous map is empty after the call, so it is not left unmodified. -/
theorem computeUserAttributesUpdate_mutation_counterexample :
    (computeUserAttributesUpdate [("nickname", "a")] [("nickname", "a")]).2.2 ≠
      [("nickname", "a")] := by decide

/-- C3 (amended): `computeUserAttributesUpdate` has no side effect
beyond mutating the previous mapping in place: after the call the
previous map holds exactly its original entries whose keys are absent
from the desired map (every key also present in desired has been
deleted from it); the desired mapping is not modified. -/
theorem computeUserAttributesUpdate_side_effect (prev desired : List (String × String)) :
    (computeUserAttributesUpdate prev desired).2.2 =
      prev.filter (fun p => !decide (p.1 ∈ keys desired)) := by
  simp only [computeUserAttributesUpdate]
  exact computeUserAttributesLoop_snd desired prev

theorem listIsPrefixOf_append_self (pre rest : List Char) :
    listIsPrefixOf pre (pre ++ rest) = true := by
  induction pre with
  | nil => rfl
  | cons a as ih => simp [listIsPrefixOf, ih]

/-- No standard attribute key starts with `custom:`, so a
`custom:`-prefixed string never equals one. -/
theorem custom_append_ne_standard (k a : String)
    (ha : a ∈ standardAttributeKeys) : ("custom:" ++ k) ≠ a := by
  intro h
  have hdata : a.data = 'c' :: 'u' :: 's' :: 't' :: 'o' :: 'm' :: ':' :: k.data := by
    rw [← h]
    rfl
  fin_cases ha <;> simp_all

theorem custom_prefixed_not_standard (k : String) :
    UserAttributeKeyMatchesStandardAttribute ("custom:" ++ k) = false := by
  have h1 : ¬ (("custom:" ++ k).data.length = 0) := by
    have hd : ("custom:" ++ k).data =
        'c' :: 'u' :: 's' :: 't' :: 'o' :: 'm' :: ':' :: k.data := rfl
    simp [hd]
  simp only [UserAttributeKeyMatchesStandardAttribute, if_neg h1]
  rw [List.any_eq_false]
  intro a ha
  simp only [beq_iff_eq]
  exact custom_append_ne_standard k a ha

theorem trim_dev_custom_append (k : String) :
    trimPrefixGo ("custom:" ++ k) "dev:" = "custom:" ++ k := by
  have h : hasPrefixGo ("custom:" ++ k) "dev:" = false := by
    show listIsPrefixOf "dev:".data ("custom:" ++ k).data = false
    have hd : ("custom:" ++ k).data =
        'c' :: 'u' :: 's' :: 't' :: 'o' :: 'm' :: ':' :: k.data := rfl
    rw [hd]
    simp [listIsPrefixOf]
  simp [trimPrefixGo, h]

theorem trim_custom_custom_append (k : String) :
    trimPrefixGo ("custom:" ++ k) "custom:" = k := by
  have h : hasPrefixGo ("custom:" ++ k) "custom:" = true := by
    show listIsPrefixOf "custom:".data ("custom:" ++ k).data = true
    have hd : ("custom:" ++ k).data = "custom:".data ++ k.data := rfl
    rw [hd]
    exact listIsPrefixOf_append_self _ _
  simp only [trimPrefixGo, h, if_pos]
  show String.mk (("custom:".data ++ k.data).drop "custom:".data.length) = k
  rw [List.drop_left]

/-- C2 counterexample: the write/read round trip is not the identity on
every non-empty non-standard key.  The non-standard key
`"custom:shoe_size"` already starts with `custom:`, so `expandAttribute`
leaves it unchanged and `flattenUserAttributes` strips the prefix,
reading back `"shoe_size"` instead of the original key. -/
theorem expand_flatten_custom_prefixed_counterexample :
    "custom:shoe_size" ≠ "" ∧
    UserAttributeKeyMatchesStandardAttribute "custom:shoe_size" = false ∧
    flattenUserAttributes (expandAttribute [("custom:shoe_size", "9")]) ≠
      [("custom:shoe_size", "9")] := by decide

/-- C2 (amended): for every non-empty attribute key that is neither in
the standard-attribute list nor already `custom:`-prefixed, writing the
key through `expandAttribute` and reading it back through
`flattenUserAttributes` yields the key (and its value) again. -/
theorem expandAttribute_flattenUserAttributes_roundtrip (k v : String)
    (hne : k ≠ "") (hstd : UserAttributeKeyMatchesStandardAttribute k = false)
    (hcustom : hasPrefixGo k "custom:" = false) :
    flattenUserAttributes (expandAttribute [(k, v)]) = [(k, v)] := by
  have hexp : expandAttribute [(k, v)] = [("custom:" ++ k, v)] := by
    simp [expandAttribute, expandAttributeKey, hstd, hcustom]
  rw [hexp]
  simp [flattenUserAttributes, flattenUserAttributeName,
    custom_prefixed_not_standard, trim_dev_custom_append,
    trim_custom_custom_append, mapInsert]

/-- Witness for C2 (amended) at the non-standard key `"shoe_size"`. -/
theorem expandAttribute_flattenUserAttributes_roundtrip_witness :
    flattenUserAttributes (expandAttribute [("shoe_size", "9")]) =
      [("shoe_size", "9")] :=
  expandAttribute_flattenUserAttributes_roundtrip "shoe_size" "9"
    (by decide) (by decide) (by decide)

/-- Step invariant of the trailing refresh read: it appends only the
lookup call to the trace; if it errs the state is unchanged; if it
returns no error then either every call it appended succeeded or the
lookup was not-found on a non-new resource and only the ID was
cleared. -/
theorem handlerFinalRead_spec (o : UserOracle) (d : UserData)
    (tr : List RemoteCall) :
    (∃ ext, (handlerFinalRead o d tr).2.1 = tr ++ ext ∧
      ∀ c ∈ ext, c = RemoteCall.adminGetUser) ∧
    ((handlerFinalRead o d tr).2.2 = true → (handlerFinalRead o d tr).1 = d) ∧
    ((handlerFinalRead o d tr).2.2 = false →
      (∀ c ∈ (handlerFinalRead o d tr).2.1, c ∈ tr ∨ userCallFailed o c = false) ∨
      (o.adminGetUser = FindResult.notFound ∧ d.isNewResource = false ∧
        (handlerFinalRead o d tr).1 = { d with id := "" })) := by
  cases h : o.adminGetUser with
  | success user =>
    refine ⟨⟨[RemoteCall.adminGetUser], by simp [handlerFinalRead, resourceUserRead, h], by simp⟩,
      by simp [handlerFinalRead, resourceUserRead, h], ?_⟩
    intro _
    left
    intro c hc
    simp only [handlerFinalRead, resourceUserRead, h] at hc
    rcases List.mem_append.mp hc with h1 | h1
    · exact Or.inl h1
    · simp at h1
      subst h1
      right
      simp [userCallFailed, h]
  | notFound =>
    by_cases hn : d.isNewResource
    · refine ⟨⟨[RemoteCall.adminGetUser], by simp [handlerFinalRead, resourceUserRead, h, hn], by simp⟩,
        by simp [handlerFinalRead, resourceUserRead, h, hn], ?_⟩
      intro hfalse
      simp [handlerFinalRead, resourceUserRead, h, hn] at hfalse
    · refine ⟨⟨[RemoteCall.adminGetUser], by simp [handlerFinalRead, resourceUserRead, h, hn], by simp⟩,
        ?_, ?_⟩
      · intro htrue
        simp [handlerFinalRead, resourceUserRead, h, hn] at htrue
      · intro _
        right
        refine ⟨rfl, by simp [hn], ?_⟩
        simp [handlerFinalRead, resourceUserRead, h, hn]
  | otherError =>
    refine ⟨⟨[RemoteCall.adminGetUser], by simp [handlerFinalRead, resourceUserRead, h], by simp⟩,
      by simp [handlerFinalRead, resourceUserRead, h], ?_⟩
    intro hfalse
    simp [handlerFinalRead, resourceUserRead, h] at hfalse

/-- Step invariant of the password block (same shape as
`handlerFinalRead_spec`). -/
theorem userUpdatePasswordStep_spec (o : UserOracle) (d : UserData)
    (tr : List RemoteCall) :
    (∃ ext, (userUpdatePasswordStep o d tr).2.1 = tr ++ ext ∧
      ∀ c ∈ ext, c = RemoteCall.adminSetUserPassword ∨
        c = RemoteCall.adminGetUser) ∧
    ((userUpdatePasswordStep o d tr).2.2 = true →
      (userUpdatePasswordStep o d tr).1 = d) ∧
    ((userUpdatePasswordStep o d tr).2.2 = false →
      (∀ c ∈ (userUpdatePasswordStep o d tr).2.1,
        c ∈ tr ∨ userCallFailed o c = false) ∨
      (o.adminGetUser = FindResult.notFound ∧ d.isNewResource = false ∧
        (userUpdatePasswordStep o d tr).1 = { d with id := "" })) := by
  unfold userUpdatePasswordStep
  by_cases h1 : (d.passwordOld != d.passwordNew) = true
  · rw [if_pos h1]
    by_cases h2 : (d.passwordNew != "") = true
    · rw [if_pos h2]
      by_cases h3 : (!o.adminSetUserPassword) = true
      · rw [if_pos h3]
        refine ⟨⟨[RemoteCall.adminSetUserPassword], rfl, by simp⟩,
          fun _ => rfl, ?_⟩
        intro hfalse
        simp at hfalse
      · rw [if_neg h3]
        obtain ⟨⟨ext, hext, htags⟩, he, hn⟩ :=
          handlerFinalRead_spec o d (tr ++ [RemoteCall.adminSetUserPassword])
        refine ⟨⟨RemoteCall.adminSetUserPassword :: ext,
          by rw [hext]; simp, ?_⟩, he, ?_⟩
        · intro c hc
          rcases List.mem_cons.mp hc with hc | hc
          · exact Or.inl hc
          · exact Or.inr (htags c hc)
        · intro hf
          rcases hn hf with hall | hnf
          · left
            intro c hc
            rcases hall c hc with hc' | hc'
            · rcases List.mem_append.mp hc' with hc'' | hc''
              · exact Or.inl hc''
              · simp at hc''
                subst hc''
                right
                simp at h3
                simp [userCallFailed, h3]
            · exact Or.inr hc'
          · exact Or.inr hnf
    · rw [if_neg h2]
      have hpw : d.passwordNew = "" := by simpa using h2
      have hd' : ({ d with passwordNew := "" } : UserData) = d := by
        rw [← hpw]
      rw [hd']
      obtain ⟨⟨ext, hext, htags⟩, he, hn⟩ := handlerFinalRead_spec o d tr
      exact ⟨⟨ext, hext, fun c hc => Or.inr (htags c hc)⟩, he, hn⟩
  · rw [if_neg h1]
    obtain ⟨⟨ext, hext, htags⟩, he, hn⟩ := handlerFinalRead_spec o d tr
    exact ⟨⟨ext, hext, fun c hc => Or.inr (htags c hc)⟩, he, hn⟩

/-- Step invariant of the temporary-password block. -/
theorem userUpdateTempPasswordStep_spec (o : UserOracle) (d : UserData)
    (tr : List RemoteCall) :
    (∃ ext, (userUpdateTempPasswordStep o d tr).2.1 = tr ++ ext ∧
      ∀ c ∈ ext, c = RemoteCall.adminSetUserPassword ∨
        c = RemoteCall.adminGetUser) ∧
    ((userUpdateTempPasswordStep o d tr).2.2 = true →
      (userUpdateTempPasswordStep o d tr).1 = d) ∧
    ((userUpdateTempPasswordStep o d tr).2.2 = false →
      (∀ c ∈ (userUpdateTempPasswordStep o d tr).2.1,
        c ∈ tr ∨ userCallFailed o c = false) ∨
      (o.adminGetUser = FindResult.notFound ∧ d.isNewResource = false ∧
        (userUpdateTempPasswordStep o d tr).1 = { d with id := "" })) := by
  unfold userUpdateTempPasswordStep
  by_cases h1 : (d.temporaryPasswordOld != d.temporaryPasswordNew) = true
  · rw [if_pos h1]
    by_cases h2 : (d.temporaryPasswordNew != "") = true
    · rw [if_pos h2]
      by_cases h3 : (!o.adminSetUserPassword) = true
      · rw [if_pos h3]
        refine ⟨⟨[RemoteCall.adminSetUserPassword], rfl, by simp⟩,
          fun _ => rfl, ?_⟩
        intro hfalse
        simp at hfalse
      · rw [if_neg h3]
        obtain ⟨⟨ext, hext, htags⟩, he, hn⟩ :=
          userUpdatePasswordStep_spec o d (tr ++ [RemoteCall.adminSetUserPassword])
        refine ⟨⟨RemoteCall.adminSetUserPassword :: ext,
          by rw [hext]; simp, ?_⟩, he, ?_⟩
        · intro c hc
          rcases List.mem_cons.mp hc with hc | hc
          · exact Or.inl hc
          · exact htags c hc
        · intro hf
          rcases hn hf with hall | hnf
          · left
            intro c hc
            rcases hall c hc with hc' | hc'
            · rcases List.mem_append.mp hc' with hc'' | hc''
              · exact Or.inl hc''
              · simp at hc''
                subst hc''
                right
                simp at h3
                simp [userCallFailed, h3]
            · exact Or.inr hc'
          · exact Or.inr hnf
    · rw [if_neg h2]
      have hpw : d.temporaryPasswordNew = "" := by simpa using h2
      have hd' : ({ d with temporaryPasswordNew := "" } : UserData) = d := by
        rw [← hpw]
      rw [hd']
      exact userUpdatePasswordStep_spec o d tr
  · rw [if_neg h1]
    exact userUpdatePasswordStep_spec o d tr

/-- Step invariant of the enabled block. -/
theorem userUpdateEnabledStep_spec (o : UserOracle) (d : UserData)
    (tr : List RemoteCall) :
    (∃ ext, (userUpdateEnabledStep o d tr).2.1 = tr ++ ext ∧
      ∀ c ∈ ext, c = RemoteCall.adminEnableUser ∨
        c = RemoteCall.adminDisableUser ∨
        c = RemoteCall.adminSetUserPassword ∨ c = RemoteCall.adminGetUser) ∧
    ((userUpdateEnabledStep o d tr).2.2 = true →
      (userUpdateEnabledStep o d tr).1 = d) ∧
    ((userUpdateEnabledStep o d tr).2.2 = false →
      (∀ c ∈ (userUpdateEnabledStep o d tr).2.1,
        c ∈ tr ∨ userCallFailed o c = false) ∨
      (o.adminGetUser = FindResult.notFound ∧ d.isNewResource = false ∧
        (userUpdateEnabledStep o d tr).1 = { d with id := "" })) := by
  unfold userUpdateEnabledStep
  by_cases h1 : (d.enabledOld != d.enabledNew) = true
  · rw [if_pos h1]
    by_cases h2 : d.enabledNew = true
    · rw [if_pos h2]
      by_cases h3 : (!o.adminEnableUser) = true
      · rw [if_pos h3]
        refine ⟨⟨[RemoteCall.adminEnableUser], rfl, by simp⟩,
          fun _ => rfl, ?_⟩
        intro hfalse
        simp at hfalse
      · rw [if_neg h3]
        obtain ⟨⟨ext, hext, htags⟩, he, hn⟩ :=
          userUpdateTempPasswordStep_spec o d (tr ++ [RemoteCall.adminEnableUser])
        refine ⟨⟨RemoteCall.adminEnableUser :: ext,
          by rw [hext]; simp, ?_⟩, he, ?_⟩
        · intro c hc
          rcases List.mem_cons.mp hc with hc | hc
          · exact Or.inl hc
          · rcases htags c hc with hc' | hc'
            · exact Or.inr (Or.inr (Or.inl hc'))
            · exact Or.inr (Or.inr (Or.inr hc'))
        · intro hf
          rcases hn hf with hall | hnf
          · left
            intro c hc
            rcases hall c hc with hc' | hc'
            · rcases List.mem_append.mp hc' with hc'' | hc''
              · exact Or.inl hc''
              · simp at hc''
                subst hc''
                right
                simp at h3
                simp [userCallFailed, h3]
            · exact Or.inr hc'
          · exact Or.inr hnf
    · rw [if_neg h2]
      by_cases h3 : (!o.adminDisableUser) = true
      · rw [if_pos h3]
        refine ⟨⟨[RemoteCall.adminDisableUser], rfl, by simp⟩,
          fun _ => rfl, ?_⟩
        intro hfalse
        simp at hfalse
      · rw [if_neg h3]
        obtain ⟨⟨ext, hext, htags⟩, he, hn⟩ :=
          userUpdateTempPasswordStep_spec o d (tr ++ [RemoteCall.adminDisableUser])
        refine ⟨⟨RemoteCall.adminDisableUser :: ext,
          by rw [hext]; simp, ?_⟩, he, ?_⟩
        · intro c hc
          rcases List.mem_cons.mp hc with hc | hc
          · exact Or.inr (Or.inl hc)
          · rcases htags c hc with hc' | hc'
            · exact Or.inr (Or.inr (Or.inl hc'))
            · exact Or.inr (Or.inr (Or.inr hc'))
        · intro hf
          rcases hn hf with hall | hnf
          · left
            intro c hc
            rcases hall c hc with hc' | hc'
            · rcases List.mem_append.mp hc' with hc'' | hc''
              · exact Or.inl hc''
              · simp at hc''
                subst hc''
                right
                simp at h3
                simp [userCallFailed, h3]
            · exact Or.inr hc'
          · exact Or.inr hnf
  · rw [if_neg h1]
    obtain ⟨⟨ext, hext, htags⟩, he, hn⟩ := userUpdateTempPasswordStep_spec o d tr
    refine ⟨⟨ext, hext, ?_⟩, he, hn⟩
    intro c hc
    rcases htags c hc with hc' | hc'
    · exact Or.inr (Or.inr (Or.inl hc'))
    · exact Or.inr (Or.inr (Or.inr hc'))

/-- Step invariant of the attribute-deletion half of the attributes
block. -/
theorem userUpdateAttributesDeleteStep_spec (o : UserOracle) (d : UserData)
    (tr : List RemoteCall) (del : List String) :
    (∃ ext, (userUpdateAttributesDeleteStep o d tr del).2.1 = tr ++ ext ∧
      ∀ c ∈ ext, c = RemoteCall.adminDeleteUserAttributes ∨
        c = RemoteCall.adminEnableUser ∨ c = RemoteCall.adminDisableUser ∨
        c = RemoteCall.adminSetUserPassword ∨ c = RemoteCall.adminGetUser) ∧
    ((userUpdateAttributesDeleteStep o d tr del).2.2 = true →
      (userUpdateAttributesDeleteStep o d tr del).1 = d) ∧
    ((userUpdateAttributesDeleteStep o d tr del).2.2 = false →
      (∀ c ∈ (userUpdateAttributesDeleteStep o d tr del).2.1,
        c ∈ tr ∨ userCallFailed o c = false) ∨
      (o.adminGetUser = FindResult.notFound ∧ d.isNewResource = false ∧
        (userUpdateAttributesDeleteStep o d tr del).1 = { d with id := "" })) := by
  unfold userUpdateAttributesDeleteStep
  by_cases h1 : 0 < del.length
  · rw [if_pos h1]
    by_cases h3 : (!o.adminDeleteUserAttributes) = true
    · rw [if_pos h3]
      refine ⟨⟨[RemoteCall.adminDeleteUserAttributes], rfl, by simp⟩,
        fun _ => rfl, ?_⟩
      intro hfalse
      simp at hfalse
    · rw [if_neg h3]
      obtain ⟨⟨ext, hext, htags⟩, he, hn⟩ :=
        userUpdateEnabledStep_spec o d (tr ++ [RemoteCall.adminDeleteUserAttributes])
      refine ⟨⟨RemoteCall.adminDeleteUserAttributes :: ext,
        by rw [hext]; simp, ?_⟩, he, ?_⟩
      · intro c hc
        rcases List.mem_cons.mp hc with hc | hc
        · exact Or.inl hc
        · exact Or.inr (htags c hc)
      · intro hf
        rcases hn hf with hall | hnf
        · left
          intro c hc
          rcases hall c hc with hc' | hc'
          · rcases List.mem_append.mp hc' with hc'' | hc''
            · exact Or.inl hc''
            · simp at hc''
              subst hc''
              right
              simp at h3
              simp [userCallFailed, h3]
          · exact Or.inr hc'
        · exact Or.inr hnf
  · rw [if_neg h1]
    obtain ⟨⟨ext, hext, htags⟩, he, hn⟩ := userUpdateEnabledStep_spec o d tr
    exact ⟨⟨ext, hext, fun c hc => Or.inr (htags c hc)⟩, he, hn⟩

/-- Step invariant of the create handler's password block. -/
theorem createPasswordStep_spec (o : UserOracle) (d : UserData)
    (tr : List RemoteCall) :
    (∃ ext, (createPasswordStep o d tr).2.1 = tr ++ ext ∧
      ∀ c ∈ ext, c = RemoteCall.adminSetUserPassword ∨
        c = RemoteCall.adminGetUser) ∧
    ((createPasswordStep o d tr).2.2 = true →
      (createPasswordStep o d tr).1 = d) ∧
    ((createPasswordStep o d tr).2.2 = false →
      (∀ c ∈ (createPasswordStep o d tr).2.1,
        c ∈ tr ∨ userCallFailed o c = false) ∨
      (o.adminGetUser = FindResult.notFound ∧ d.isNewResource = false ∧
        (createPasswordStep o d tr).1 = { d with id := "" })) := by
  unfold createPasswordStep
  by_cases h2 : (d.passwordNew != "") = true
  · rw [if_pos h2]
    by_cases h3 : (!o.adminSetUserPassword) = true
    · rw [if_pos h3]
      refine ⟨⟨[RemoteCall.adminSetUserPassword], rfl, by simp⟩,
        fun _ => rfl, ?_⟩
      intro hfalse
      simp at hfalse
    · rw [if_neg h3]
      obtain ⟨⟨ext, hext, htags⟩, he, hn⟩ :=
        handlerFinalRead_spec o d (tr ++ [RemoteCall.adminSetUserPassword])
      refine ⟨⟨RemoteCall.adminSetUserPassword :: ext,
        by rw [hext]; simp, ?_⟩, he, ?_⟩
      · intro c hc
        rcases List.mem_cons.mp hc with hc | hc
        · exact Or.inl hc
        · exact Or.inr (htags c hc)
      · intro hf
        rcases hn hf with hall | hnf
        · left
          intro c hc
          rcases hall c hc with hc' | hc'
          · rcases List.mem_append.mp hc' with hc'' | hc''
            · exact Or.inl hc''
            · simp at hc''
              subst hc''
              right
              simp at h3
              simp [userCallFailed, h3]
          · exact Or.inr hc'
        · exact Or.inr hnf
  · rw [if_neg h2]
    obtain ⟨⟨ext, hext, htags⟩, he, hn⟩ := handlerFinalRead_spec o d tr
    exact ⟨⟨ext, hext, fun c hc => Or.inr (htags c hc)⟩, he, hn⟩

/-- `resourceUserUpdate` error semantics: an error diagnostic is
returned with the local state exactly as it was on entry, and a
no-error return means either every remote call made succeeded or the
final read's lookup was not-found on a non-new resource and the ID was
cleared. -/
theorem resourceUserUpdate_spec (o : UserOracle) (d : UserData) :
    ((resourceUserUpdate o d).2.2 = true → (resourceUserUpdate o d).1 = d) ∧
    ((resourceUserUpdate o d).2.2 = false →
      (∀ c ∈ (resourceUserUpdate o d).2.1, userCallFailed o c = false) ∨
      (o.adminGetUser = FindResult.notFound ∧ d.isNewResource = false ∧
        (resourceUserUpdate o d).1 = { d with id := "" })) := by
  unfold resourceUserUpdate
  by_cases h1 : (d.attributesOld != d.attributesNew) = true
  · rw [if_pos h1]
    by_cases h2 : 0 <
        (computeUserAttributesUpdate d.attributesOld d.attributesNew).1.length
    · rw [if_pos h2]
      by_cases h3 : (!o.adminUpdateUserAttributes) = true
      · rw [if_pos h3]
        refine ⟨fun _ => rfl, ?_⟩
        intro hfalse
        simp at hfalse
      · rw [if_neg h3]
        obtain ⟨_, he, hn⟩ := userUpdateAttributesDeleteStep_spec o d
          [RemoteCall.adminUpdateUserAttributes]
          (computeUserAttributesUpdate d.attributesOld d.attributesNew).2.1
        refine ⟨he, ?_⟩
        intro hf
        rcases hn hf with hall | hnf
        · left
          intro c hc
          rcases hall c hc with hc' | hc'
          · simp at hc'
            subst hc'
            simp at h3
            simp [userCallFailed, h3]
          · exact hc'
        · exact Or.inr hnf
    · rw [if_neg h2]
      obtain ⟨_, he, hn⟩ := userUpdateAttributesDeleteStep_spec o d []
        (computeUserAttributesUpdate d.attributesOld d.attributesNew).2.1
      refine ⟨he, ?_⟩
      intro hf
      rcases hn hf with hall | hnf
      · left
        intro c hc
        rcases hall c hc with hc' | hc'
        · simp at hc'
        · exact hc'
      · exact Or.inr hnf
  · rw [if_neg h1]
    obtain ⟨_, he, hn⟩ := userUpdateEnabledStep_spec o d []
    refine ⟨he, ?_⟩
    intro hf
    rcases hn hf with hall | hnf
    · left
      intro c hc
      rcases hall c hc with hc' | hc'
      · simp at hc'
      · exact hc'
    · exact Or.inr hnf

/-- `resourceUserCreate` error semantics (for a resource the runtime
marks as new, which is always the case during create): an error
diagnostic leaves the state either untouched (when `AdminCreateUser`
itself failed) or with only the ID written after a successful
`AdminCreateUser`; a no-error return means every remote call made
succeeded. -/
theorem resourceUserCreate_spec (o : UserOracle) (d : UserData)
    (hnew : d.isNewResource = true) :
    ((resourceUserCreate o d).2.2 = true →
      (resourceUserCreate o d).1 = d ∨
      (∃ u, o.adminCreateUser = some u ∧
        (resourceUserCreate o d).1 =
          { d with id := d.userPoolId ++ "/" ++ u })) ∧
    ((resourceUserCreate o d).2.2 = false →
      ∀ c ∈ (resourceUserCreate o d).2.1, userCallFailed o c = false) := by
  cases hco : o.adminCreateUser with
  | none =>
    have hred : resourceUserCreate o d = (d, [RemoteCall.adminCreateUser], true) := by
      unfold resourceUserCreate
      rw [hco]
    rw [hred]
    refine ⟨fun _ => Or.inl rfl, ?_⟩
    intro hfalse
    simp at hfalse
  | some u =>
    have hd1new : ({ d with id := d.userPoolId ++ "/" ++ u } : UserData).isNewResource = true := hnew
    have hcreateok : userCallFailed o RemoteCall.adminCreateUser = false := by
      simp [userCallFailed, hco]
    by_cases h2 : (!d.enabledNew) = true
    · by_cases h3 : (!o.adminDisableUser) = true
      · have hred : resourceUserCreate o d =
            ({ d with id := d.userPoolId ++ "/" ++ u },
              [RemoteCall.adminCreateUser, RemoteCall.adminDisableUser], true) := by
          unfold resourceUserCreate
          simp only [hco]
          rw [if_pos h2, if_pos h3]
        rw [hred]
        refine ⟨fun _ => Or.inr ⟨u, rfl, rfl⟩, ?_⟩
        intro hfalse
        simp at hfalse
      · have hred : resourceUserCreate o d =
            createPasswordStep o { d with id := d.userPoolId ++ "/" ++ u }
              [RemoteCall.adminCreateUser, RemoteCall.adminDisableUser] := by
          unfold resourceUserCreate
          simp only [hco]
          rw [if_pos h2, if_neg h3]
        rw [hred]
        obtain ⟨_, he, hn⟩ := createPasswordStep_spec o
          { d with id := d.userPoolId ++ "/" ++ u }
          [RemoteCall.adminCreateUser, RemoteCall.adminDisableUser]
        refine ⟨fun ht => Or.inr ⟨u, rfl, he ht⟩, ?_⟩
        intro hf
        rcases hn hf with hall | hnf
        · intro c hc
          rcases hall c hc with hc' | hc'
          · simp at hc'
            rcases hc' with hc' | hc'
            · subst hc'
              exact hcreateok
            · subst hc'
              simp at h3
              simp [userCallFailed, h3]
          · exact hc'
        · obtain ⟨_, hfn, _⟩ := hnf
          have hcontra : d.isNewResource = false := hfn
          rw [hnew] at hcontra
          simp at hcontra
    · have hred : resourceUserCreate o d =
          createPasswordStep o { d with id := d.userPoolId ++ "/" ++ u }
            [RemoteCall.adminCreateUser] := by
        unfold resourceUserCreate
        simp only [hco]
        rw [if_neg h2]
      rw [hred]
      obtain ⟨_, he, hn⟩ := createPasswordStep_spec o
        { d with id := d.userPoolId ++ "/" ++ u } [RemoteCall.adminCreateUser]
      refine ⟨fun ht => Or.inr ⟨u, rfl, he ht⟩, ?_⟩
      intro hf
      rcases hn hf with hall | hnf
      · intro c hc
        rcases hall c hc with hc' | hc'
        · simp at hc'
          subst hc'
          exact hcreateok
        · exact hc'
      · obtain ⟨_, hfn, _⟩ := hnf
        have hcontra : d.isNewResource = false := hfn
        rw [hnew] at hcontra
        simp at hcontra

/-- Every call in the trace after the temporary-password block was in
the trace before it or is a password-set or lookup call. -/
theorem userUpdateTempPasswordStep_mem (o : UserOracle) (d : UserData)
    (tr : List RemoteCall) :
    ∀ c ∈ (userUpdateTempPasswordStep o d tr).2.1, c ∈ tr ∨
      c = RemoteCall.adminSetUserPassword ∨ c = RemoteCall.adminGetUser := by
  intro c hc
  obtain ⟨⟨ext, hext, htags⟩, _, _⟩ := userUpdateTempPasswordStep_spec o d tr
  rw [hext] at hc
  rcases List.mem_append.mp hc with hc | hc
  · exact Or.inl hc
  · exact Or.inr (htags c hc)

/-- Every call in the trace after the enabled block was in the trace
before it or is an enable, disable, password-set or lookup call. -/
theorem userUpdateEnabledStep_mem (o : UserOracle) (d : UserData)
    (tr : List RemoteCall) :
    ∀ c ∈ (userUpdateEnabledStep o d tr).2.1, c ∈ tr ∨
      c = RemoteCall.adminEnableUser ∨ c = RemoteCall.adminDisableUser ∨
      c = RemoteCall.adminSetUserPassword ∨ c = RemoteCall.adminGetUser := by
  intro c hc
  obtain ⟨⟨ext, hext, htags⟩, _, _⟩ := userUpdateEnabledStep_spec o d tr
  rw [hext] at hc
  rcases List.mem_append.mp hc with hc | hc
  · exact Or.inl hc
  · exact Or.inr (htags c hc)

/-- C7: during an update, the AdminUpdateUserAttributes call is issued
only when the computed upsert mapping is non-empty and the
AdminDeleteUserAttributes call only when the computed delete list is
non-empty. -/
theorem update_attribute_calls_only_when_nonempty (o : UserOracle)
    (d : UserData) :
    ((computeUserAttributesUpdate d.attributesOld d.attributesNew).1 = [] →
      RemoteCall.adminUpdateUserAttributes ∉ (resourceUserUpdate o d).2.1) ∧
    ((computeUserAttributesUpdate d.attributesOld d.attributesNew).2.1 = [] →
      RemoteCall.adminDeleteUserAttributes ∉ (resourceUserUpdate o d).2.1) := by
  constructor
  · intro hupd hc
    unfold resourceUserUpdate at hc
    by_cases h1 : (d.attributesOld != d.attributesNew) = true
    · rw [if_pos h1] at hc
      rw [if_neg (by simp [hupd])] at hc
      rcases userUpdateAttributesDeleteStep_spec o d []
          (computeUserAttributesUpdate d.attributesOld d.attributesNew).2.1 with
        ⟨⟨ext, hext, htags⟩, -, -⟩
      rw [hext] at hc
      rcases List.mem_append.mp hc with hc | hc
      · simp at hc
      · rcases htags _ hc with h' | h' | h' | h' | h' <;> simp at h'
    · rw [if_neg h1] at hc
      rcases userUpdateEnabledStep_mem o d [] _ hc with h' | h' | h' | h' | h' <;>
        simp at h'
  · intro hdel hc
    unfold resourceUserUpdate at hc
    by_cases h1 : (d.attributesOld != d.attributesNew) = true
    · rw [if_pos h1] at hc
      by_cases h2 : 0 <
          (computeUserAttributesUpdate d.attributesOld d.attributesNew).1.length
      · rw [if_pos h2] at hc
        by_cases h3 : (!o.adminUpdateUserAttributes) = true
        · rw [if_pos h3] at hc
          simp at hc
        · rw [if_neg h3] at hc
          unfold userUpdateAttributesDeleteStep at hc
          rw [hdel] at hc
          rw [if_neg (by simp)] at hc
          rcases userUpdateEnabledStep_mem o d
              [RemoteCall.adminUpdateUserAttributes] _ hc with
            h' | h' | h' | h' | h' <;> simp at h'
      · rw [if_neg h2] at hc
        unfold userUpdateAttributesDeleteStep at hc
        rw [hdel] at hc
        rw [if_neg (by simp)] at hc
        rcases userUpdateEnabledStep_mem o d [] _ hc with h' | h' | h' | h' | h' <;>
          simp at h'
    · rw [if_neg h1] at hc
      rcases userUpdateEnabledStep_mem o d [] _ hc with h' | h' | h' | h' | h' <;>
        simp at h'

/-- C8: an update in which the enabled attribute has not changed issues
no AdminEnableUser and no AdminDisableUser call. -/
theorem update_enabled_call_only_on_change (o : UserOracle) (d : UserData)
    (h : d.enabledOld = d.enabledNew) :
    RemoteCall.adminEnableUser ∉ (resourceUserUpdate o d).2.1 ∧
    RemoteCall.adminDisableUser ∉ (resourceUserUpdate o d).2.1 := by
  have hred : ∀ tr, userUpdateEnabledStep o d tr = userUpdateTempPasswordStep o d tr := by
    intro tr
    unfold userUpdateEnabledStep
    rw [if_neg (by simp [h])]
  have hattr : ∀ tr del, ∀ c ∈ (userUpdateAttributesDeleteStep o d tr del).2.1,
      c ∈ tr ∨ c = RemoteCall.adminDeleteUserAttributes ∨
      c = RemoteCall.adminSetUserPassword ∨ c = RemoteCall.adminGetUser := by
    intro tr del c hc
    unfold userUpdateAttributesDeleteStep at hc
    by_cases h1 : 0 < del.length
    · rw [if_pos h1] at hc
      by_cases h3 : (!o.adminDeleteUserAttributes) = true
      · rw [if_pos h3] at hc
        rcases List.mem_append.mp hc with hc | hc
        · exact Or.inl hc
        · simp at hc
          subst hc
          exact Or.inr (Or.inl rfl)
      · rw [if_neg h3, hred] at hc
        rcases userUpdateTempPasswordStep_mem o d _ _ hc with hc | hc
        · rcases List.mem_append.mp hc with hc | hc
          · exact Or.inl hc
          · simp at hc
            subst hc
            exact Or.inr (Or.inl rfl)
        · exact Or.inr (Or.inr hc)
    · rw [if_neg h1, hred] at hc
      rcases userUpdateTempPasswordStep_mem o d tr _ hc with hc | hc
      · exact Or.inl hc
      · exact Or.inr (Or.inr hc)
  have key : ∀ c ∈ (resourceUserUpdate o d).2.1,
      c = RemoteCall.adminUpdateUserAttributes ∨
      c = RemoteCall.adminDeleteUserAttributes ∨
      c = RemoteCall.adminSetUserPassword ∨ c = RemoteCall.adminGetUser := by
    intro c hc
    unfold resourceUserUpdate at hc
    by_cases h1 : (d.attributesOld != d.attributesNew) = true
    · rw [if_pos h1] at hc
      by_cases h2 : 0 <
          (computeUserAttributesUpdate d.attributesOld d.attributesNew).1.length
      · rw [if_pos h2] at hc
        by_cases h3 : (!o.adminUpdateUserAttributes) = true
        · rw [if_pos h3] at hc
          simp at hc
          exact Or.inl hc
        · rw [if_neg h3] at hc
          rcases hattr _ _ c hc with hc' | hc'
          · simp at hc'
            exact Or.inl hc'
          · exact Or.inr hc'
      · rw [if_neg h2] at hc
        rcases hattr _ _ c hc with hc' | hc'
        · simp at hc'
        · exact Or.inr hc'
    · rw [if_neg h1, hred] at hc
      rcases userUpdateTempPasswordStep_mem o d [] c hc with hc' | hc'
      · simp at hc'
      · exact Or.inr (Or.inr hc')
  constructor <;> intro hc <;>
    rcases key _ hc with h' | h' | h' | h' <;> simp at h'

/-- C4 (amended): for every create or update invocation of the Cognito
user resource in which some remote call fails, the handler stops at the
first failure and — with one exception — returns an error diagnostic;
on an error return the local state is exactly as it was at the failure,
i.e. unmodified except for writes already performed before the failing
call (for create, the resource ID set after a successful
`AdminCreateUser` persists; update writes nothing before its calls).
The exception: when the only failure is a not-found from the trailing
refresh read of an update (resource not newly created), the handler
clears the resource ID and returns no error.  Stated
contrapositively: an error return leaves update state untouched and
create state at most ID-written, and a no-error return means every
remote call made succeeded, except for the update ID-clearing case. -/
theorem create_update_failure_semantics (o : UserOracle) (d : UserData) :
    ((resourceUserUpdate o d).2.2 = true → (resourceUserUpdate o d).1 = d) ∧
    ((resourceUserUpdate o d).2.2 = false →
      (∀ c ∈ (resourceUserUpdate o d).2.1, userCallFailed o c = false) ∨
      (o.adminGetUser = FindResult.notFound ∧ d.isNewResource = false ∧
        (resourceUserUpdate o d).1 = { d with id := "" })) ∧
    (d.isNewResource = true →
      ((resourceUserCreate o d).2.2 = true →
        (resourceUserCreate o d).1 = d ∨
        (∃ u, o.adminCreateUser = some u ∧
          (resourceUserCreate o d).1 =
            { d with id := d.userPoolId ++ "/" ++ u })) ∧
      ((resourceUserCreate o d).2.2 = false →
        ∀ c ∈ (resourceUserCreate o d).2.1, userCallFailed o c = false)) :=
  ⟨(resourceUserUpdate_spec o d).1, (resourceUserUpdate_spec o d).2,
    fun hnew => resourceUserCreate_spec o d hnew⟩

/-- C4 counterexample: a create with `enabled = false` in which
`AdminCreateUser` succeeds and the subsequent `AdminDisableUser` fails.
A remote call failed and the handler returns an error diagnostic, but
the local state is NOT left unmodified: the resource ID was already set
after the successful `AdminCreateUser`.  So "a failed remote call must
leave local state unmodified" is false as stated. -/
theorem create_partial_write_counterexample :
    (userCallFailed { sampleUserOracle with adminDisableUser := false }
        RemoteCall.adminDisableUser = true ∧
      RemoteCall.adminDisableUser ∈
        (resourceUserCreate { sampleUserOracle with adminDisableUser := false }
          { sampleUserData with
            id := "", enabledNew := false, isNewResource := true }).2.1) ∧
    (resourceUserCreate { sampleUserOracle with adminDisableUser := false }
      { sampleUserData with
        id := "", enabledNew := false, isNewResource := true }).2.2 = true ∧
    (resourceUserCreate { sampleUserOracle with adminDisableUser := false }
      { sampleUserData with
        id := "", enabledNew := false, isNewResource := true }).1 ≠
      { sampleUserData with
        id := "", enabledNew := false, isNewResource := true } := by
  decide

/-- Witness for C4 (amended): an update whose
`AdminUpdateUserAttributes` call fails returns an error diagnostic with
the state unmodified. -/
theorem create_update_failure_semantics_witness :
    (resourceUserUpdate
      { sampleUserOracle with adminUpdateUserAttributes := false }
      { sampleUserData with attributesNew := [("locale", "en")] }).2.2 = true ∧
    (resourceUserUpdate
      { sampleUserOracle with adminUpdateUserAttributes := false }
      { sampleUserData with attributesNew := [("locale", "en")] }).1 =
      { sampleUserData with attributesNew := [("locale", "en")] } :=
  ⟨by decide,
    (create_update_failure_semantics
      { sampleUserOracle with adminUpdateUserAttributes := false }
      { sampleUserData with attributesNew := [("locale", "en")] }).1 (by decide)⟩

/-- Witness for C7: with unchanged (hence empty upsert and delete)
attributes, neither attribute call appears in the update's trace. -/
theorem update_attribute_calls_witness :
    RemoteCall.adminUpdateUserAttributes ∉
      (resourceUserUpdate sampleUserOracle sampleUserData).2.1 ∧
    RemoteCall.adminDeleteUserAttributes ∉
      (resourceUserUpdate sampleUserOracle sampleUserData).2.1 :=
  ⟨(update_attribute_calls_only_when_nonempty sampleUserOracle sampleUserData).1
      (by decide),
    (update_attribute_calls_only_when_nonempty sampleUserOracle sampleUserData).2
      (by decide)⟩

/-- Witness for C8: an update with `enabled` unchanged (already `true`)
issues neither `AdminEnableUser` nor `AdminDisableUser`. -/
theorem update_enabled_call_witness :
    RemoteCall.adminEnableUser ∉
      (resourceUserUpdate sampleUserOracle sampleUserData).2.1 ∧
    RemoteCall.adminDisableUser ∉
      (resourceUserUpdate sampleUserOracle sampleUserData).2.1 :=
  update_enabled_call_only_on_change sampleUserOracle sampleUserData (by decide)

/-- C5: for every read invocation of either resource, when the remote
lookup of the resource reports not-found and the local resource is not
newly created, the read handler clears the resource ID and returns no
error diagnostic; any other lookup error (a non-not-found error, or a
not-found on a newly created resource) yields an error diagnostic. -/
theorem read_not_found_semantics (o : UserOracle) (d : UserData)
    (oc : CoreNetworkOracle) (dc : CoreNetworkData) :
    (o.adminGetUser = FindResult.notFound → d.isNewResource = false →
      (resourceUserRead o d).1 = { d with id := "" } ∧
      (resourceUserRead o d).2.2 = false) ∧
    (o.adminGetUser = FindResult.otherError →
      (resourceUserRead o d).2.2 = true) ∧
    (o.adminGetUser = FindResult.notFound → d.isNewResource = true →
      (resourceUserRead o d).2.2 = true) ∧
    (oc.findCoreNetwork = FindResult.notFound → dc.isNewResource = false →
      (resourceCoreNetworkPolicyAttachmentRead oc dc).1 = { dc with id := "" } ∧
      (resourceCoreNetworkPolicyAttachmentRead oc dc).2.2 = false) ∧
    (oc.findCoreNetwork = FindResult.otherError →
      (resourceCoreNetworkPolicyAttachmentRead oc dc).2.2 = true) ∧
    (oc.findCoreNetwork = FindResult.notFound → dc.isNewResource = true →
      (resourceCoreNetworkPolicyAttachmentRead oc dc).2.2 = true) := by
  refine ⟨?_, ?_, ?_, ?_, ?_, ?_⟩
  · intro h hn
    constructor <;> simp [resourceUserRead, h, hn]
  · intro h
    simp [resourceUserRead, h]
  · intro h hn
    simp [resourceUserRead, h, hn]
  · intro h hn
    constructor <;> simp [resourceCoreNetworkPolicyAttachmentRead, h, hn]
  · intro h
    simp [resourceCoreNetworkPolicyAttachmentRead, h]
  · intro h hn
    simp [resourceCoreNetworkPolicyAttachmentRead, h, hn]

/-- Witness for C5 at concrete not-found reads of both resources. -/
theorem read_not_found_semantics_witness :
    ((resourceUserRead sampleUserOracle sampleUserData).1 =
      { sampleUserData with id := "" } ∧
      (resourceUserRead sampleUserOracle sampleUserData).2.2 = false) ∧
    ((resourceCoreNetworkPolicyAttachmentRead sampleCoreNetworkOracle
        sampleCoreNetworkData).1 = { sampleCoreNetworkData with id := "" } ∧
      (resourceCoreNetworkPolicyAttachmentRead sampleCoreNetworkOracle
        sampleCoreNetworkData).2.2 = false) :=
  ⟨(read_not_found_semantics sampleUserOracle sampleUserData
      sampleCoreNetworkOracle sampleCoreNetworkData).1 rfl rfl,
    (read_not_found_semantics sampleUserOracle sampleUserData
      sampleCoreNetworkOracle sampleCoreNetworkData).2.2.2.1 rfl rfl⟩

/-- C9: the delete operation of the core-network policy attachment
resource is a no-op: for every state it makes no remote call (empty
trace, hence the remote resource is untouched), returns no error
diagnostic, and returns the local state unchanged. -/
theorem core_network_policy_attachment_delete_noop (d : CoreNetworkData) :
    resourceCoreNetworkPolicyAttachmentDelete d = (d, [], false) := rfl

/-- C6: `resourceUserImport` fails exactly when splitting the import ID
on `'/'` does not yield two parts (i.e. the error is returned if and
only if the split length differs from 2, and the `none` result carries
no state change, so the failure happens before any state is set); on a
well-formed two-part ID it sets `user_pool_id` to the first part and
`username` to the second, leaving all other fields unchanged. -/
theorem resourceUserImport_spec (d : UserData) :
    (resourceUserImport d = none ↔ (goSplitSlash d.id).length ≠ 2) ∧
    (∀ p u, goSplitSlash d.id = [p, u] →
      resourceUserImport d = some { d with userPoolId := p, username := u }) := by
  constructor
  · unfold resourceUserImport
    by_cases h : (goSplitSlash d.id).length ≠ 2
    · rw [if_pos h]
      simp [h]
    · rw [if_neg h]
      simp [h]
  · intro p u h
    unfold resourceUserImport
    rw [h]
    simp

/-- Witness for C6 at the well-formed import ID `"pool/alice"`. -/
theorem resourceUserImport_spec_witness :
    goSplitSlash "pool/alice" = ["pool", "alice"] ∧
    resourceUserImport sampleUserData =
      some { sampleUserData with userPoolId := "pool", username := "alice" } :=
  ⟨by decide,
    (resourceUserImport_spec sampleUserData).2 "pool" "alice" (by decide)⟩

/-- C10: `resourceUserImport` accepts an ID with exactly one `'/'` even
when a component is empty — no validation beyond the two-part split is
applied: `"pool/"` succeeds with `user_pool_id = "pool"` and
`username = ""`, and `"/alice"` succeeds with `user_pool_id = ""` and
`username = "alice"`. -/
theorem resourceUserImport_accepts_empty_parts :
    (resourceUserImport { sampleUserData with id := "pool/" } =
      some { sampleUserData with
        id := "pool/", userPoolId := "pool", username := "" }) ∧
    (resourceUserImport { sampleUserData with id := "/alice" } =
      some { sampleUserData with
        id := "/alice", userPoolId := "", username := "alice" }) := by
  decide

end TFAWS
